import Mathlib

/-!
Shallow embedding of the routing simulator (src/project.c) and verification of
its specification claims.

Modelling conventions:
* C strings are embedded as `List Char` (the program only handles ASCII input,
  so byte-wise and character-wise processing agree on every input that affects
  a result).
* `scanf` integer inputs are embedded as `ℤ`; a failed `scanf` sets the C
  variable to `-1` (resp. `1` for the continue flag), so failure is already a
  member of the input alphabet and needs no separate constructor.
* The interactive prompts are embedded as explicit input lists (the spec's
  HopProvider); exhausting the list corresponds to the interactive program
  blocking forever, which the embedding reports as `none` / an empty trace.
* Machine integers are modelled as `ℕ`/`ℤ`; none of the verified behaviour
  depends on 32/64-bit wraparound (octet tokens are at most 9 digits after the
  strncpy truncation, so `atoi` never overflows on a path that affects the
  returned boolean).
-/

/-- Maximum length for an IP address string (project.c line 8). -/
def MAX_IP_LEN : ℕ := 16

/-- Number of routers (project.c line 10). -/
def NUM_ROUTERS : ℕ := 4

/-- Max number of stored routes (project.c line 14). -/
def MAX_ROUTE_HISTORY : ℕ := 20

/-- `validate_number` (project.c lines 39-48): the string is nonempty and all
characters are digits. -/
def validate_number (t : List Char) : Bool :=
  !t.isEmpty && t.all (fun c => c.isDigit)

/-- Value of `atoi` on an all-digit ASCII string (the only inputs the program
feeds to `atoi` after `validate_number` has succeeded). -/
def parseNat (t : List Char) : ℕ :=
  t.foldl (fun a c => a * 10 + (c.toNat - 48)) 0

/-- `strtok(temp, ".")` loop: splits into the maximal nonempty runs of
non-dot characters, in order. `cur` is the (reversed) token being scanned. -/
def tokenizeAux : List Char → List Char → List (List Char)
  | cur, [] => if cur.isEmpty then [] else [cur.reverse]
  | cur, c :: cs =>
    if c = '.' then
      if cur.isEmpty then tokenizeAux [] cs else cur.reverse :: tokenizeAux [] cs
    else tokenizeAux (c :: cur) cs

/-- `validate_ip` (project.c lines 55-88).  The input is first truncated by
`strncpy(temp_ip, ip_str, MAX_IP_LEN - 1)`, then cut into `strtok` tokens; each
token must be all digits with value at most 255, and there must be exactly 4
tokens.  The C code's `dots` counter always equals `octet_count - 1` when the
token loop finishes, so the `dots != 3` test adds nothing once
`octet_count == 4`; early `return false` on a bad token yields the same boolean
as checking all tokens, so the conjunction below is extensionally the C
function. -/
def validate_ip (s : List Char) : Bool :=
  if s.isEmpty then false
  else
    let toks := tokenizeAux [] (s.take (MAX_IP_LEN - 1))
    decide (toks.length = 4) &&
      toks.all (fun t => validate_number t && decide (parseNat t ≤ 255))

/-- Dot-splitting that keeps empty tokens: the reading of "4 dot-separated
tokens with exactly 3 separating dots" used by the spec (length 4 here is
exactly the 3-dots condition). -/
def spec_split : List Char → List (List Char)
  | [] => [[]]
  | c :: cs =>
    if c = '.' then [] :: spec_split cs
    else
      match spec_split cs with
      | [] => [[c]]
      | t :: ts => (c :: t) :: ts

/-- The spec's validity predicate, written from its words: the whole string
splits into exactly 4 dot-separated, non-empty, all-digit tokens, each with
value in [0,255] (so leading/trailing/double dots, which create empty tokens,
are rejected). -/
def spec_valid (s : List Char) : Bool :=
  let toks := spec_split s
  decide (toks.length = 4) &&
    toks.all (fun t => !t.isEmpty && t.all (fun c => c.isDigit) && decide (parseNat t ≤ 255))

/-- The amended validity predicate: only the first `MAX_IP_LEN - 1` characters
are examined, and empty tokens are discarded (not rejected) before requiring
exactly 4 all-digit tokens in range. -/
def amended_valid (s : List Char) : Bool :=
  let toks := (spec_split (s.take (MAX_IP_LEN - 1))).filter (fun t => !t.isEmpty)
  decide (toks.length = 4) &&
    toks.all (fun t => validate_number t && decide (parseNat t ≤ 255))

/-- An adjacency matrix is a list of rows of 0/1 entries. -/
abbrev Mat : Type := List (List ℕ)

/-- Reading cell `[i][j]` of a matrix (0-based, out-of-range reads modelled as
the harmless default 0; the C program only indexes with ids validated to
`[1, NUM_ROUTERS]`, giving indices in range). -/
def matCell (M : Mat) (i j : ℕ) : ℕ :=
  (M.getD i []).getD j 0

/-- The connection matrix (project.c lines 126-131). -/
def connection_matrix : Mat :=
  [[1, 1, 0, 1],
   [1, 1, 1, 0],
   [0, 1, 1, 1],
   [1, 0, 1, 1]]

/-- The connection matrix with its diagonal self-loop entries cleared; used to
test whether the diagonal carries path-construction meaning. -/
def matrix_nodiag : Mat :=
  [[0, 1, 0, 1],
   [1, 0, 1, 0],
   [0, 1, 0, 1],
   [1, 0, 1, 0]]

/-- Adjacency as the program uses it: `connection_matrix[a-1][b-1] == 1`. -/
def AdjP (M : Mat) (a b : ℕ) : Prop :=
  matCell M (a - 1) (b - 1) = 1

instance (M : Mat) (a b : ℕ) : Decidable (AdjP M a b) := by
  unfold AdjP; infer_instance

/-- `concat_router_ids` (project.c lines 111-117): print both numbers in
decimal, concatenate the strings, parse back.  Arithmetically the left value is
shifted by the decimal length of the right one; `Nat.toDigits 10 i` is the
`sprintf "%d"` digit string (length 1 for `i = 0`, matching `"0"`). -/
def concat_router_ids (v : ℕ) (i : ℕ) : ℕ :=
  v * 10 ^ (Nat.toDigits 10 i).length + i

/-- The encoded value the program accumulates for a router sequence: start from
0 and `concat_router_ids` each id in order (project.c lines 241, 251, 278, 295,
308). -/
def encodeFold (rs : List ℕ) : ℕ :=
  rs.foldl concat_router_ids 0

/-- The number whose decimal digit string is the concatenation of the decimal
representations of the ids in order (spec section 3): in little-endian digit
lists, the last id contributes the least significant digits. -/
def decimalConcatenation (rs : List ℕ) : ℕ :=
  Nat.ofDigits 10 ((rs.reverse.map (Nat.digits 10)).flatten)

/-- Result of running (a suffix of) the interactive path construction:
`result` is `some (sequence, encoded)` when the construction terminated,
`none` when the input list ran out first (the interactive program would block);
`hops` is the final value of `router_index`, i.e. how many accepted
intermediate hops were written into `intermediate_routers` (the k-th accepted
hop is written at index k-1); `reads` lists the 0-based `connection_matrix`
cells consulted, in order. -/
structure RunResult where
  result : Option (List ℕ × ℕ)
  hops : ℕ
  reads : List (ℕ × ℕ)
deriving DecidableEq, Repr

/-- Record one consulted matrix cell in front of a run's read trace. -/
def RunResult.addRead (c : ℕ × ℕ) (r : RunResult) : RunResult :=
  ⟨r.result, r.hops, c :: r.reads⟩

/-- The manual route definition loop (project.c lines 266-319).  State:
`current` router, accumulated router sequence `path` (starts at the source),
its encoding `rp` (= `route_path`), and `ridx` (= `router_index`).  One input
is consumed per iteration:
* `0` asks to finalize: honored iff `connection_matrix[current-1][dest-1] == 1`
  (append `dest`, terminate), else rejected;
* an id outside `[1, NUM_ROUTERS]` (including the `-1` left by a failed
  `scanf`) is rejected;
* the id `dest` terminates iff `current` links to `dest`, else rejected;
* another in-range id is accepted iff `current` links to it: it is written to
  `intermediate_routers[ridx]`, appended, and becomes `current` (after which
  the code additionally consults `connection_matrix[current-1][dest-1]` for an
  informational message), else rejected.
The body is a C do-while: `continue` (every reject branch) and plain
fall-through jump to the guard `while (current_router != dest_router)` at line
319, so when `current = dest` - possible exactly while `current` is still the
source of a source-equals-destination query, since an accepted hop is never
`dest` - a rejected input exits the loop through the guard and the route is
logged with the path and encoding accumulated so far (no `dest` appended).
An accepted hop sets `current` to a non-`dest` router, so the guard passes
after every acceptance. -/
def manualRun (M : Mat) (dest : ℕ) :
    ℕ → List ℕ → ℕ → ℕ → List ℤ → RunResult
  | _, _, _, ridx, [] => ⟨none, ridx, []⟩
  | current, path, rp, ridx, x :: rest =>
    if x = 0 then
      if matCell M (current - 1) (dest - 1) = 1 then
        ⟨some (path ++ [dest], concat_router_ids rp dest), ridx, [(current - 1, dest - 1)]⟩
      else if current = dest then
        ⟨some (path, rp), ridx, [(current - 1, dest - 1)]⟩
      else
        (manualRun M dest current path rp ridx rest).addRead (current - 1, dest - 1)
    else if x < 1 ∨ (NUM_ROUTERS : ℤ) < x then
      if current = dest then
        ⟨some (path, rp), ridx, []⟩
      else
        manualRun M dest current path rp ridx rest
    else if x.toNat = dest then
      if matCell M (current - 1) (dest - 1) = 1 then
        ⟨some (path ++ [dest], concat_router_ids rp dest), ridx, [(current - 1, dest - 1)]⟩
      else if current = dest then
        ⟨some (path, rp), ridx, [(current - 1, dest - 1)]⟩
      else
        (manualRun M dest current path rp ridx rest).addRead (current - 1, dest - 1)
    else if matCell M (current - 1) (x.toNat - 1) = 1 then
      ((manualRun M dest x.toNat (path ++ [x.toNat]) (concat_router_ids rp x.toNat) (ridx + 1)
          rest).addRead (x.toNat - 1, dest - 1)).addRead (current - 1, x.toNat - 1)
    else if current = dest then
      ⟨some (path, rp), ridx, [(current - 1, x.toNat - 1)]⟩
    else
      (manualRun M dest current path rp ridx rest).addRead (current - 1, x.toNat - 1)

/-- One route determination (project.c lines 238-319): read
`connection_matrix[source-1][dest-1]`; when it is 1 the direct-path offer is
made and `choice = 1` accepts it, terminating at once with `[source, dest]`;
otherwise the manual loop runs, starting from `path = [source]`,
`route_path = concat_router_ids 0 source`, `router_index = 0`. -/
def resolveRoute (M : Mat) (source dest : ℕ) (choice : ℤ) (hops : List ℤ) : RunResult :=
  if matCell M (source - 1) (dest - 1) = 1 ∧ choice = 1 then
    ⟨some ([source, dest], concat_router_ids (concat_router_ids 0 source) dest), 0,
      [(source - 1, dest - 1)]⟩
  else
    (manualRun M dest source [source] (concat_router_ids 0 source) 0 hops).addRead
      (source - 1, dest - 1)

/-- The conditions under which one manual-loop input is rejected (project.c
lines 275-317): a finalize request without a link to the destination, an id
outside `[1, NUM_ROUTERS]`, the destination id without a link to it, or a
non-adjacent intermediate hop. -/
def hopRejected (M : Mat) (dest current : ℕ) (x : ℤ) : Bool :=
  if x = 0 then decide (matCell M (current - 1) (dest - 1) ≠ 1)
  else if x < 1 ∨ (NUM_ROUTERS : ℤ) < x then true
  else if x.toNat = dest then decide (matCell M (current - 1) (dest - 1) ≠ 1)
  else decide (matCell M (current - 1) (x.toNat - 1) ≠ 1)

/-- `find_router_by_ip` inner scan (project.c lines 95-105), carrying the
0-based index of the first router still to examine. -/
def find_router_aux : ℕ → List (List (List Char)) → List Char → ℕ
  | _, [], _ => 0
  | i, row :: rows, ip => if ip ∈ row then i + 1 else find_router_aux (i + 1) rows ip

/-- `find_router_by_ip` (project.c lines 95-105): scan routers in index order,
within a router in list order; return the 1-based number of the first router
owning the IP, or 0 if none does. -/
def find_router_by_ip (cfg : List (List (List Char))) (ip : List Char) : ℕ :=
  find_router_aux 0 cfg ip

/-- The history key `sprintf("%s*%s", source_ip, destination_ip)`
(project.c line 221). -/
def route_key (s d : List Char) : List Char :=
  s ++ '*' :: d

/-- The history scan (project.c lines 223-229): entries in insertion order,
first `strcmp` match on the key wins.  The parallel arrays `route_history` /
`intermediate_history` (same index) are embedded as a list of pairs. -/
def historyLookup : List (List Char × ℕ) → List Char → Option ℕ
  | [], _ => none
  | e :: rest, key => if e.1 = key then some e.2 else historyLookup rest key

/-- The interactive inputs of one routing query, after the re-prompt loops for
the two IPs have settled on Validator-valid, owned addresses: the two IP
strings, the direct-path `choice`, the manual-loop inputs, and the final
continue flag (0 continues, anything else - including the 1 left by a failed
`scanf` - stops). -/
structure QueryEvent where
  sip : List Char
  dip : List Char
  choice : ℤ
  hops : List ℤ
  cont : ℤ
deriving DecidableEq, Repr

/-- Observable outcome of one served query. -/
inductive Outcome where
  | hit (path : ℕ)
  | fresh (seq : List ℕ) (enc : ℕ)
deriving DecidableEq, Repr

/-- One query end to end (project.c lines 178-346): resolve the two routers,
build the key, consult the history; on a hit report the stored encoding and do
not touch the resolver; on a miss run the resolver and, if it terminated,
append the new entry when capacity remains (line 325).  `none` means the
resolver ran out of inputs (the interactive program blocks). -/
def sessionQuery (M : Mat) (cfg : List (List (List Char)))
    (hist : List (List Char × ℕ)) (q : QueryEvent) :
    Option Outcome × List (List Char × ℕ) :=
  let s := find_router_by_ip cfg q.sip
  let d := find_router_by_ip cfg q.dip
  let key := route_key q.sip q.dip
  match historyLookup hist key with
  | some p => (some (Outcome.hit p), hist)
  | none =>
    match (resolveRoute M s d q.choice q.hops).result with
    | none => (none, hist)
    | some (p, enc) =>
      let hist' := if hist.length < MAX_ROUTE_HISTORY then hist ++ [(key, enc)] else hist
      (some (Outcome.fresh p enc), hist')

/-- The routing loop (project.c lines 176-356): `while (continue_flag == 0 &&
history_count < MAX_ROUTE_HISTORY)`.  Returns the outcomes of the served
queries and the final history. -/
def routingLoop (M : Mat) (cfg : List (List (List Char))) :
    List (List Char × ℕ) → List QueryEvent → List Outcome × List (List Char × ℕ)
  | hist, [] => ([], hist)
  | hist, q :: rest =>
    if hist.length < MAX_ROUTE_HISTORY then
      match sessionQuery M cfg hist q with
      | (none, h) => ([], h)
      | (some o, h) =>
        if q.cont = 0 then
          let r := routingLoop M cfg h rest
          (o :: r.1, r.2)
        else ([o], h)
    else ([], hist)

/-- The per-slot IP prompt (project.c lines 165-168): keep consuming inputs
until one passes `validate_ip`; that one is stored.  `none` when the input
stream runs out (the interactive program would keep prompting). -/
def read_valid_ip : List (List Char) → Option (List Char × List (List Char))
  | [] => none
  | ip :: rest => if validate_ip ip then some (ip, rest) else read_valid_ip rest

/-- Loading the `n` network IPs of one router (project.c lines 164-171). -/
def load_router_ips : ℕ → List (List Char) → Option (List (List Char) × List (List Char))
  | 0, stream => some ([], stream)
  | n + 1, stream =>
    match read_valid_ip stream with
    | none => none
    | some (ip, rest) =>
      match load_router_ips n rest with
      | none => none
      | some (ips, rest') => some (ip :: ips, rest')

/-- Loading every router's IPs in router order (project.c lines 163-173);
`some cfg` is the configuration with which the program prints
"IP configurations loaded successfully" and proceeds to serve queries. -/
def load_all_configs : List ℕ → List (List Char) → Option (List (List (List Char)))
  | [], _ => some []
  | n :: ns, stream =>
    match load_router_ips n stream with
    | none => none
    | some (ips, rest) => (load_all_configs ns rest).map (ips :: ·)

/-- Cutting a stream into consecutive chunks of the given sizes. -/
def chunksOf : List ℕ → List (List Char) → List (List (List Char))
  | [], _ => []
  | n :: ns, l => l.take n :: chunksOf ns (l.drop n)

/-- A valid IP string registered twice in the duplicate-ownership scenario. -/
def dupIp : List Char := ['1', '.', '1', '.', '1', '.', '1']

/-- The valid IP string `1.1.1.i` (decimal `i`). -/
def ipNum (i : ℕ) : List Char := ['1', '.', '1', '.', '1', '.'] ++ Nat.toDigits 10 i

/-- A full history: `MAX_ROUTE_HISTORY` plausible entries (distinct keys built
from valid IPs, each storing the encoding of the direct route `[1,2]`). -/
def hist20 : List (List Char × ℕ) :=
  (List.range MAX_ROUTE_HISTORY).map (fun i => (route_key (ipNum i) (ipNum (i + 50)), 12))

/-- Source IP of the concrete fresh query used against the full cache. -/
def ipA : List Char := ['9', '.', '0', '.', '0', '.', '1']

/-- Destination IP of the concrete fresh query used against the full cache. -/
def ipB : List Char := ['9', '.', '0', '.', '0', '.', '2']

/-- Concrete configuration: router 1 owns `ipA`, router 2 owns `ipB`. -/
def cfg2 : List (List (List Char)) := [[ipA], [ipB], [], []]

/-! ## Helper lemmas -/

lemma NUM_ROUTERS_eq : NUM_ROUTERS = 4 := rfl

lemma MAX_ROUTE_HISTORY_eq : MAX_ROUTE_HISTORY = 20 := rfl

lemma addRead_result (c : ℕ × ℕ) (r : RunResult) : (r.addRead c).result = r.result := rfl

lemma addRead_hops (c : ℕ × ℕ) (r : RunResult) : (r.addRead c).hops = r.hops := rfl

lemma addRead_reads (c : ℕ × ℕ) (r : RunResult) : (r.addRead c).reads = c :: r.reads := rfl

lemma spec_split_ne_nil (l : List Char) : spec_split l ≠ [] := by
  cases l with
  | nil => simp [spec_split]
  | cons c cs =>
    by_cases h : c = '.'
    · simp [spec_split, h]
    · simp only [spec_split, if_neg h]
      cases spec_split cs <;> simp

lemma spec_split_headI_tail (l : List Char) :
    spec_split l = (spec_split l).headI :: (spec_split l).tail := by
  cases hs : spec_split l with
  | nil => exact absurd hs (spec_split_ne_nil l)
  | cons t ts => rfl

lemma spec_split_cons_dot (cs : List Char) :
    spec_split ('.' :: cs) = [] :: spec_split cs := by
  simp [spec_split]

lemma spec_split_cons_ne {c : Char} (cs : List Char) (h : ¬c = '.') :
    spec_split (c :: cs) = (c :: (spec_split cs).headI) :: (spec_split cs).tail := by
  cases hs : spec_split cs with
  | nil => exact absurd hs (spec_split_ne_nil cs)
  | cons t ts => simp [spec_split, h, hs]

lemma tokenizeAux_eq (l : List Char) :
    ∀ cur : List Char,
      tokenizeAux cur l =
        ((cur.reverse ++ (spec_split l).headI) :: (spec_split l).tail).filter
          (fun t => !t.isEmpty) := by
  induction l with
  | nil =>
    intro cur
    by_cases hcur : cur = []
    · subst hcur; simp [tokenizeAux, spec_split, List.filter]
    · have hrev : cur.reverse.isEmpty = false := by
        simp [List.isEmpty_iff, hcur]
      have hcur' : cur.isEmpty = false := by simp [List.isEmpty_iff, hcur]
      simp [tokenizeAux, spec_split, hcur', List.filter_cons, hrev]
  | cons c cs ih =>
    intro cur
    by_cases h : c = '.'
    · subst h
      rw [spec_split_cons_dot]
      have hA : tokenizeAux [] cs = (spec_split cs).filter (fun t => !t.isEmpty) := by
        rw [ih []]
        conv_rhs => rw [spec_split_headI_tail cs]
        simp
      by_cases hcur : cur = []
      · subst hcur
        simp [tokenizeAux, hA, List.filter]
      · have hrev : ¬cur.reverse.isEmpty := by
          simpa [List.isEmpty_iff] using hcur
        have hcur' : ¬cur.isEmpty := by simpa [List.isEmpty_iff] using hcur
        simp [tokenizeAux, hcur', hA, List.filter_cons, hrev]
    · rw [spec_split_cons_ne cs h]
      have hstep : tokenizeAux cur (c :: cs) = tokenizeAux (c :: cur) cs := by
        simp [tokenizeAux, h]
      rw [hstep, ih (c :: cur)]
      simp [List.append_assoc]

lemma tokenize_eq_filter (l : List Char) :
    tokenizeAux [] l = (spec_split l).filter (fun t => !t.isEmpty) := by
  rw [tokenizeAux_eq]
  conv_rhs => rw [spec_split_headI_tail l]
  simp

lemma toDigits_length_one {a : ℕ} (h1 : 1 ≤ a) (h9 : a ≤ 9) :
    (Nat.toDigits 10 a).length = 1 := by
  interval_cases a <;> rfl

lemma concat_router_ids_zero_left (a : ℕ) : concat_router_ids 0 a = a := by
  simp [concat_router_ids]

lemma concat_router_ids_single {v a : ℕ} (h1 : 1 ≤ a) (h9 : a ≤ 9) :
    concat_router_ids v a = v * 10 + a := by
  rw [concat_router_ids, toDigits_length_one h1 h9, pow_one]

lemma digits_single {a : ℕ} (h1 : 1 ≤ a) (h9 : a ≤ 9) : Nat.digits 10 a = [a] :=
  Nat.digits_of_lt 10 a (by omega) (by omega)

lemma encodeFold_append (rs : List ℕ) (r : ℕ) :
    encodeFold (rs ++ [r]) = concat_router_ids (encodeFold rs) r := by
  simp [encodeFold, List.foldl_append]

lemma decimalConcatenation_append (rs : List ℕ) (r : ℕ) (h1 : 1 ≤ r) (h9 : r ≤ 9) :
    decimalConcatenation (rs ++ [r]) = r + 10 * decimalConcatenation rs := by
  simp only [decimalConcatenation, List.reverse_append, List.reverse_singleton,
    List.singleton_append, List.map_cons, List.flatten_cons, Nat.ofDigits_append,
    digits_single h1 h9]
  simp [Nat.ofDigits]

lemma encodeFold_eq_decimalConcatenation :
    ∀ rs : List ℕ, (∀ r ∈ rs, 1 ≤ r ∧ r ≤ 9) →
      encodeFold rs = decimalConcatenation rs := by
  intro rs
  induction rs using List.reverseRecOn with
  | nil => intro _; rfl
  | append_singleton l a ih =>
    intro h
    have ha := h a (by simp)
    rw [encodeFold_append, decimalConcatenation_append l a ha.1 ha.2,
      concat_router_ids_single ha.1 ha.2, ih (fun r hr => h r (by simp [hr]))]
    ring

/-! ## Claim C2 -/

/-- Claim C2 counterexample: the string "1..2.3.4" contains a double dot (an
empty token), so the claimed characterization requires `validate(s) = false`;
the program's `validate_ip` nevertheless accepts it, because `strtok` treats a
run of dots as one separator. -/
theorem validate_ip_accepts_double_dot :
    validate_ip ['1', '.', '.', '2', '.', '3', '.', '4'] = true ∧
      spec_valid ['1', '.', '.', '2', '.', '3', '.', '4'] = false :=
  ⟨by decide, by decide⟩

/-- Claim C2 (amended): `validate_ip s` is true iff the first
`MAX_IP_LEN - 1 = 15` characters of `s`, split at dots with the empty tokens
discarded rather than rejected, yield exactly 4 non-empty all-digit tokens
each of value at most 255.  Leading, trailing and consecutive dots are
tolerated (they only produce discarded empty tokens), and characters beyond
the 15th are ignored; non-digit characters, out-of-range octets and a token
count other than 4 are still rejected. -/
theorem validate_ip_eq_amended (s : List Char) : validate_ip s = amended_valid s := by
  by_cases hs : s = []
  · subst hs
    simp [validate_ip, amended_valid, spec_split, List.filter]
  · have hs' : s.isEmpty = false := by simp [List.isEmpty_iff, hs]
    simp only [validate_ip, amended_valid, hs', Bool.false_eq_true, if_false,
      tokenize_eq_filter]

/-! ## Soundness of the manual assembly loop -/

lemma manualRun_sound (M : Mat) (dest : ℕ) :
    ∀ (inputs : List ℤ) (current : ℕ) (path : List ℕ) (ridx : ℕ),
      path ≠ [] → path.getLast? = some current → List.Chain' (AdjP M) path →
      ∀ p enc,
        (manualRun M dest current path (encodeFold path) ridx inputs).result = some (p, enc) →
        p.head? = path.head? ∧ p.getLast? = some dest ∧ List.Chain' (AdjP M) p ∧
          enc = encodeFold p ∧
          ∀ r ∈ p, r ∈ path ∨ r = dest ∨ (1 ≤ r ∧ r ≤ NUM_ROUTERS) := by
  intro inputs
  induction inputs with
  | nil =>
    intro current path ridx _ _ _ p enc h
    simp [manualRun] at h
  | cons x rest ih =>
    intro current path ridx hne hlast hchain p enc h
    have hterm : ∀ hadj : matCell M (current - 1) (dest - 1) = 1,
        path ++ [dest] = p → concat_router_ids (encodeFold path) dest = enc →
        p.head? = path.head? ∧ p.getLast? = some dest ∧ List.Chain' (AdjP M) p ∧
          enc = encodeFold p ∧
          ∀ r ∈ p, r ∈ path ∨ r = dest ∨ (1 ≤ r ∧ r ≤ NUM_ROUTERS) := by
      intro hadj hp henc
      subst hp
      refine ⟨List.head?_append_of_ne_nil _ hne, List.getLast?_concat _, ?_, ?_, ?_⟩
      · rw [List.chain'_append]
        refine ⟨hchain, List.chain'_singleton dest, ?_⟩
        intro a ha b hb
        rw [hlast] at ha
        simp at ha hb
        subst ha; subst hb
        exact hadj
      · rw [← henc, encodeFold_append]
      · intro r hr
        rcases List.mem_append.mp hr with h | h
        · exact Or.inl h
        · simp at h; exact Or.inr (Or.inl h)
    have hstop : current = dest → path = p → encodeFold path = enc →
        p.head? = path.head? ∧ p.getLast? = some dest ∧ List.Chain' (AdjP M) p ∧
          enc = encodeFold p ∧
          ∀ r ∈ p, r ∈ path ∨ r = dest ∨ (1 ≤ r ∧ r ≤ NUM_ROUTERS) := by
      intro hcd hp henc
      subst hp
      exact ⟨rfl, hcd ▸ hlast, hchain, henc.symm, fun r hr => Or.inl hr⟩
    by_cases hx0 : x = 0
    · by_cases hadj : matCell M (current - 1) (dest - 1) = 1
      · rw [manualRun, if_pos hx0, if_pos hadj] at h
        simp only [Option.some.injEq, Prod.mk.injEq] at h
        exact hterm hadj h.1 h.2
      · by_cases hcd : current = dest
        · rw [manualRun, if_pos hx0, if_neg hadj, if_pos hcd] at h
          simp only [Option.some.injEq, Prod.mk.injEq] at h
          exact hstop hcd h.1 h.2
        · rw [manualRun, if_pos hx0, if_neg hadj, if_neg hcd, addRead_result] at h
          exact ih current path ridx hne hlast hchain p enc h
    · by_cases hrange : x < 1 ∨ (NUM_ROUTERS : ℤ) < x
      · by_cases hcd : current = dest
        · rw [manualRun, if_neg hx0, if_pos hrange, if_pos hcd] at h
          simp only [Option.some.injEq, Prod.mk.injEq] at h
          exact hstop hcd h.1 h.2
        · rw [manualRun, if_neg hx0, if_pos hrange, if_neg hcd] at h
          exact ih current path ridx hne hlast hchain p enc h
      · by_cases hdest : x.toNat = dest
        · by_cases hadj : matCell M (current - 1) (dest - 1) = 1
          · rw [manualRun, if_neg hx0, if_neg hrange, if_pos hdest, if_pos hadj] at h
            simp only [Option.some.injEq, Prod.mk.injEq] at h
            exact hterm hadj h.1 h.2
          · by_cases hcd : current = dest
            · rw [manualRun, if_neg hx0, if_neg hrange, if_pos hdest, if_neg hadj,
                if_pos hcd] at h
              simp only [Option.some.injEq, Prod.mk.injEq] at h
              exact hstop hcd h.1 h.2
            · rw [manualRun, if_neg hx0, if_neg hrange, if_pos hdest, if_neg hadj,
                if_neg hcd, addRead_result] at h
              exact ih current path ridx hne hlast hchain p enc h
        · by_cases hadj : matCell M (current - 1) (x.toNat - 1) = 1
          · rw [manualRun, if_neg hx0, if_neg hrange, if_neg hdest, if_pos hadj,
              addRead_result, addRead_result] at h
            rw [← encodeFold_append] at h
            have hxr : 1 ≤ x.toNat ∧ x.toNat ≤ NUM_ROUTERS := by
              rw [NUM_ROUTERS_eq]
              push_neg at hrange
              rw [NUM_ROUTERS_eq] at hrange
              omega
            have hrec := ih x.toNat (path ++ [x.toNat]) (ridx + 1) (by simp)
              (List.getLast?_concat _) ?_ p enc h
            · obtain ⟨h1, h2, h3, h4, h5⟩ := hrec
              refine ⟨h1.trans (List.head?_append_of_ne_nil _ hne), h2, h3, h4, ?_⟩
              intro r hr
              rcases h5 r hr with hmem | hrdest | hrrange
              · rcases List.mem_append.mp hmem with hmem' | hmem'
                · exact Or.inl hmem'
                · simp at hmem'
                  subst hmem'
                  exact Or.inr (Or.inr hxr)
              · exact Or.inr (Or.inl hrdest)
              · exact Or.inr (Or.inr hrrange)
            · rw [List.chain'_append]
              refine ⟨hchain, List.chain'_singleton _, ?_⟩
              intro a ha b hb
              rw [hlast] at ha
              simp at ha hb
              subst ha; subst hb
              exact hadj
          · by_cases hcd : current = dest
            · rw [manualRun, if_neg hx0, if_neg hrange, if_neg hdest, if_neg hadj,
                if_pos hcd] at h
              simp only [Option.some.injEq, Prod.mk.injEq] at h
              exact hstop hcd h.1 h.2
            · rw [manualRun, if_neg hx0, if_neg hrange, if_neg hdest, if_neg hadj,
                if_neg hcd, addRead_result] at h
              exact ih current path ridx hne hlast hchain p enc h

/-! ## Claim C1 -/

/-- Claim C1: every ResolvedPath produced by manual hop assembly - for any
hop-provider input sequence that reaches termination - is an ordered router-id
sequence that starts with the source router, ends with the destination router,
and has `connection_matrix` adjacency (entry = 1) for every consecutive
pair. -/
theorem manual_assembly_path_valid (s d : ℕ) (inputs : List ℤ) (p : List ℕ) (enc : ℕ)
    (h : (manualRun connection_matrix d s [s] (concat_router_ids 0 s) 0 inputs).result
          = some (p, enc)) :
    p.head? = some s ∧ p.getLast? = some d ∧ List.Chain' (AdjP connection_matrix) p := by
  have h' : (manualRun connection_matrix d s [s] (encodeFold [s]) 0 inputs).result
      = some (p, enc) := h
  obtain ⟨h1, h2, h3, _, _⟩ := manualRun_sound connection_matrix d inputs s [s] 0
    (by simp) (by simp) (List.chain'_singleton s) p enc h'
  exact ⟨by simpa using h1, h2, h3⟩

/-- Witness for C1: source router 1, destination router 3, hop inputs
[2, 0] (hop to router 2, then finalize). -/
theorem manual_assembly_path_valid_witness :
    ([1, 2, 3] : List ℕ).head? = some 1 ∧ ([1, 2, 3] : List ℕ).getLast? = some 3 ∧
      List.Chain' (AdjP connection_matrix) [1, 2, 3] :=
  manual_assembly_path_valid 1 3 [2, 0] [1, 2, 3] 123 (by decide)

/-! ## Claim C3 -/

/-- Claim C3: when source and destination are adjacent and the hop provider
accepts the direct-path offer (`choice = 1`), resolution terminates at once
with exactly the two-element path `[source, dest]` - the result is the same
whatever further hop inputs are available (none are consumed), and no
intermediate write occurs (`hops = 0`). -/
theorem direct_shortcut_immediate (s d : ℕ) (hs1 : 1 ≤ s) (hs4 : s ≤ NUM_ROUTERS)
    (hd1 : 1 ≤ d) (hd4 : d ≤ NUM_ROUTERS) (hadj : AdjP connection_matrix s d)
    (hops : List ℤ) :
    resolveRoute connection_matrix s d 1 hops =
      ⟨some ([s, d], s * 10 + d), 0, [(s - 1, d - 1)]⟩ := by
  rw [resolveRoute, if_pos ⟨hadj, rfl⟩, concat_router_ids_zero_left,
    concat_router_ids_single hd1 (by rw [NUM_ROUTERS_eq] at hd4; omega)]

/-- Witness for C3: routers 1 and 2 are adjacent; with the offer accepted the
resolution is `[1, 2]` even though further hop inputs are available. -/
theorem direct_shortcut_immediate_witness :
    resolveRoute connection_matrix 1 2 1 [3, 4, 0] =
      ⟨some ([1, 2], 12), 0, [(0, 1)]⟩ :=
  direct_shortcut_immediate 1 2 (by decide) (by decide) (by decide) (by decide)
    (by decide) [3, 4, 0]

/-! ## Claim C6 -/

/-- Claim C6: for every router-id sequence produced by resolution (direct
shortcut or manual assembly), the stored integer equals the number whose
decimal digit string is the concatenation of the decimal representations of
the ids in order. -/
theorem stored_encoding_is_decimal_concatenation (s d : ℕ)
    (hs1 : 1 ≤ s) (hs4 : s ≤ NUM_ROUTERS) (hd1 : 1 ≤ d) (hd4 : d ≤ NUM_ROUTERS)
    (choice : ℤ) (hops : List ℤ) (p : List ℕ) (enc : ℕ)
    (h : (resolveRoute connection_matrix s d choice hops).result = some (p, enc)) :
    enc = decimalConcatenation p := by
  rw [NUM_ROUTERS_eq] at hs4 hd4
  rw [resolveRoute] at h
  by_cases hdir : matCell connection_matrix (s - 1) (d - 1) = 1 ∧ choice = 1
  · rw [if_pos hdir] at h
    simp only [Option.some.injEq, Prod.mk.injEq] at h
    obtain ⟨h1, h2⟩ := h
    subst h1
    subst h2
    rw [concat_router_ids_zero_left, concat_router_ids_single hd1 (by omega)]
    rw [show ([s, d] : List ℕ) = [s] ++ [d] from rfl,
      decimalConcatenation_append [s] d hd1 (by omega),
      show ([s] : List ℕ) = [] ++ [s] from rfl,
      decimalConcatenation_append [] s hs1 (by omega)]
    simp [decimalConcatenation]
    ring
  · rw [if_neg hdir, addRead_result] at h
    have h' : (manualRun connection_matrix d s [s] (encodeFold [s]) 0 hops).result
        = some (p, enc) := h
    obtain ⟨_, _, _, henc, hmem⟩ := manualRun_sound connection_matrix d hops s [s] 0
      (by simp) (by simp) (List.chain'_singleton s) p enc h'
    rw [henc]
    apply encodeFold_eq_decimalConcatenation
    intro r hr
    rcases hmem r hr with hr1 | hr2 | hr3
    · simp at hr1; omega
    · omega
    · rw [NUM_ROUTERS_eq] at hr3; omega

/-- Witness for C6: the manual run from router 1 to router 3 through router 2
stores 123, the decimal concatenation of [1, 2, 3]. -/
theorem stored_encoding_is_decimal_concatenation_witness :
    (123 : ℕ) = decimalConcatenation [1, 2, 3] :=
  stored_encoding_is_decimal_concatenation 1 3 (by decide) (by decide) (by decide)
    (by decide) 0 [2, 0] [1, 2, 3] 123 (by decide)

/-! ## Claim C7 -/

/-- Claim C7 counterexample: with source = destination = 1 (both query IPs on
router 1) and the shortcut declined (`choice = 0`), the out-of-range proposal
7 is rejected - yet the loop does not continue to the next prompt: the
`continue` re-tests the do-while guard `current != dest`, which fails, so
resolution terminates at once with the accumulated path [1] and encoding 1,
discarding the remaining inputs.  The same remaining inputs [2, 0] alone
instead drive the loop to the different result [1, 2, 1]. -/
theorem rejected_hop_can_terminate_loop :
    (resolveRoute connection_matrix 1 1 0 [7, 2, 0]).result = some ([1], 1) ∧
      (resolveRoute connection_matrix 1 1 0 [2, 0]).result = some ([1, 2, 1], 121) :=
  ⟨by decide, by decide⟩

/-- Claim C7 (amended): whenever a hop proposal is rejected while the current
router differs from the destination - which is always the case when the
query's source and destination routers differ - the current router,
accumulated path, encoding and write index are left unchanged and the loop
continues with the next prompt: the run on the remaining inputs from the same
state is identical.  When the current router equals the destination (possible
exactly while no hop has been accepted in a source-equals-destination query),
a rejected proposal instead terminates the loop through the do-while guard,
logging the path and encoding accumulated so far. -/
theorem rejected_hop_frame_unless_at_dest (M : Mat) (dest current : ℕ) (x : ℤ)
    (rest : List ℤ) (path : List ℕ) (rp ridx : ℕ)
    (h : hopRejected M dest current x = true) :
    (current ≠ dest →
        (manualRun M dest current path rp ridx (x :: rest)).result
            = (manualRun M dest current path rp ridx rest).result ∧
          (manualRun M dest current path rp ridx (x :: rest)).hops
            = (manualRun M dest current path rp ridx rest).hops) ∧
      (current = dest →
        (manualRun M dest current path rp ridx (x :: rest)).result = some (path, rp)) := by
  rw [hopRejected] at h
  by_cases hx0 : x = 0
  · rw [if_pos hx0] at h
    have hadj : ¬matCell M (current - 1) (dest - 1) = 1 := by simpa using h
    constructor
    · intro hcd
      rw [manualRun, if_pos hx0, if_neg hadj, if_neg hcd, addRead_result, addRead_hops]
      exact ⟨rfl, rfl⟩
    · intro hcd
      rw [manualRun, if_pos hx0, if_neg hadj, if_pos hcd]
  · rw [if_neg hx0] at h
    by_cases hrange : x < 1 ∨ (NUM_ROUTERS : ℤ) < x
    · constructor
      · intro hcd
        rw [manualRun, if_neg hx0, if_pos hrange, if_neg hcd]
        exact ⟨rfl, rfl⟩
      · intro hcd
        rw [manualRun, if_neg hx0, if_pos hrange, if_pos hcd]
    · rw [if_neg hrange] at h
      by_cases hdest : x.toNat = dest
      · rw [if_pos hdest] at h
        have hadj : ¬matCell M (current - 1) (dest - 1) = 1 := by simpa using h
        constructor
        · intro hcd
          rw [manualRun, if_neg hx0, if_neg hrange, if_pos hdest, if_neg hadj,
            if_neg hcd, addRead_result, addRead_hops]
          exact ⟨rfl, rfl⟩
        · intro hcd
          rw [manualRun, if_neg hx0, if_neg hrange, if_pos hdest, if_neg hadj, if_pos hcd]
      · rw [if_neg hdest] at h
        have hadj : ¬matCell M (current - 1) (x.toNat - 1) = 1 := by simpa using h
        constructor
        · intro hcd
          rw [manualRun, if_neg hx0, if_neg hrange, if_neg hdest, if_neg hadj,
            if_neg hcd, addRead_result, addRead_hops]
          exact ⟨rfl, rfl⟩
        · intro hcd
          rw [manualRun, if_neg hx0, if_neg hrange, if_neg hdest, if_neg hadj, if_pos hcd]

/-- Witness for the amended C7: with destination 3 and current router 1
(current ≠ dest) the rejected proposal 3 leaves the run as if not supplied;
with destination = current = 1 the rejected proposal 7 terminates the loop
with the accumulated path. -/
theorem rejected_hop_frame_unless_at_dest_witness :
    ((manualRun connection_matrix 3 1 [1] 1 0 [3, 2, 0]).result
        = (manualRun connection_matrix 3 1 [1] 1 0 [2, 0]).result ∧
      (manualRun connection_matrix 3 1 [1] 1 0 [3, 2, 0]).hops
        = (manualRun connection_matrix 3 1 [1] 1 0 [2, 0]).hops) ∧
      (manualRun connection_matrix 1 1 [1] 1 0 [7, 9, 9]).result = some ([1], 1) :=
  ⟨(rejected_hop_frame_unless_at_dest connection_matrix 3 1 3 [2, 0] [1] 1 0
      (by decide)).1 (by decide),
   (rejected_hop_frame_unless_at_dest connection_matrix 1 1 7 [9, 9] [1] 1 0
      (by decide)).2 rfl⟩

/-! ## Claim C10 -/

/-- Claim C10 is false of the code: with source router 1 and destination
router 3 the hop inputs [2, 1, 2, 1, 2] are all accepted (R1 and R2 are
mutually adjacent and neither is the destination), so `router_index` reaches
5: five writes to `intermediate_routers` occur, and the fifth is at index
4 = NUM_ROUTERS, past the end of `int intermediate_routers[NUM_ROUTERS]`. -/
theorem intermediate_buffer_overflows :
    (manualRun connection_matrix 3 1 [1] (concat_router_ids 0 1) 0
        [2, 1, 2, 1, 2]).hops = 5 ∧ NUM_ROUTERS < 5 :=
  ⟨by decide, by decide⟩

/-! ## Claim C9 -/

lemma manualRun_offdiag_invariant (M M' : Mat)
    (agree : ∀ i j : ℕ, i ≠ j → matCell M i j = matCell M' i j) (dest : ℕ) :
    ∀ (inputs : List ℤ) (current : ℕ) (path : List ℕ) (rp ridx : ℕ),
      1 ≤ current → 1 ≤ dest → current ≠ dest →
      (∀ c ∈ (manualRun M dest current path rp ridx inputs).reads, c.1 ≠ c.2) →
      manualRun M' dest current path rp ridx inputs
        = manualRun M dest current path rp ridx inputs := by
  intro inputs
  induction inputs with
  | nil => intro current path rp ridx _ _ _ _; rfl
  | cons x rest ih =>
    intro current path rp ridx hc1 hd1 hcd hreads
    have hcd' : current - 1 ≠ dest - 1 := by omega
    have hMd : matCell M' (current - 1) (dest - 1) = matCell M (current - 1) (dest - 1) :=
      (agree _ _ hcd').symm
    by_cases hx0 : x = 0
    · by_cases hadj : matCell M (current - 1) (dest - 1) = 1
      · rw [manualRun, manualRun, if_pos hx0, if_pos hx0, hMd, if_pos hadj, if_pos hadj]
      · have hr : ∀ c ∈ (manualRun M dest current path rp ridx rest).reads, c.1 ≠ c.2 := by
          intro c hc
          apply hreads
          rw [manualRun, if_pos hx0, if_neg hadj, if_neg hcd, addRead_reads]
          exact List.mem_cons_of_mem _ hc
        rw [manualRun, manualRun, if_pos hx0, if_pos hx0, hMd, if_neg hadj, if_neg hadj,
          if_neg hcd, if_neg hcd, ih current path rp ridx hc1 hd1 hcd hr]
    · by_cases hrange : x < 1 ∨ (NUM_ROUTERS : ℤ) < x
      · have hr : ∀ c ∈ (manualRun M dest current path rp ridx rest).reads, c.1 ≠ c.2 := by
          intro c hc
          apply hreads
          rw [manualRun, if_neg hx0, if_pos hrange, if_neg hcd]
          exact hc
        rw [manualRun, manualRun, if_neg hx0, if_neg hx0, if_pos hrange, if_pos hrange,
          if_neg hcd, if_neg hcd, ih current path rp ridx hc1 hd1 hcd hr]
      · by_cases hdest : x.toNat = dest
        · by_cases hadj : matCell M (current - 1) (dest - 1) = 1
          · rw [manualRun, manualRun, if_neg hx0, if_neg hx0, if_neg hrange, if_neg hrange,
              if_pos hdest, if_pos hdest, hMd, if_pos hadj, if_pos hadj]
          · have hr : ∀ c ∈ (manualRun M dest current path rp ridx rest).reads, c.1 ≠ c.2 := by
              intro c hc
              apply hreads
              rw [manualRun, if_neg hx0, if_neg hrange, if_pos hdest, if_neg hadj,
                if_neg hcd, addRead_reads]
              exact List.mem_cons_of_mem _ hc
            rw [manualRun, manualRun, if_neg hx0, if_neg hx0, if_neg hrange, if_neg hrange,
              if_pos hdest, if_pos hdest, hMd, if_neg hadj, if_neg hadj,
              if_neg hcd, if_neg hcd, ih current path rp ridx hc1 hd1 hcd hr]
        · have hx1 : 1 ≤ x.toNat := by
            push_neg at hrange
            omega
          have hhead : (current - 1, x.toNat - 1) ∈
              (manualRun M dest current path rp ridx (x :: rest)).reads := by
            rw [manualRun, if_neg hx0, if_neg hrange, if_neg hdest]
            by_cases hadj : matCell M (current - 1) (x.toNat - 1) = 1
            · rw [if_pos hadj, addRead_reads]
              exact List.mem_cons_self _ _
            · rw [if_neg hadj, if_neg hcd, addRead_reads]
              exact List.mem_cons_self _ _
          have hcx : current - 1 ≠ x.toNat - 1 := hreads _ hhead
          have hMx : matCell M' (current - 1) (x.toNat - 1)
              = matCell M (current - 1) (x.toNat - 1) := (agree _ _ hcx).symm
          by_cases hadj : matCell M (current - 1) (x.toNat - 1) = 1
          · have hr : ∀ c ∈ (manualRun M dest x.toNat (path ++ [x.toNat])
                (concat_router_ids rp x.toNat) (ridx + 1) rest).reads, c.1 ≠ c.2 := by
              intro c hc
              apply hreads
              rw [manualRun, if_neg hx0, if_neg hrange, if_neg hdest, if_pos hadj,
                addRead_reads, addRead_reads]
              exact List.mem_cons_of_mem _ (List.mem_cons_of_mem _ hc)
            rw [manualRun, manualRun, if_neg hx0, if_neg hx0, if_neg hrange, if_neg hrange,
              if_neg hdest, if_neg hdest, hMx, if_pos hadj, if_pos hadj,
              ih x.toNat (path ++ [x.toNat]) (concat_router_ids rp x.toNat) (ridx + 1)
                hx1 hd1 hdest hr]
          · have hr : ∀ c ∈ (manualRun M dest current path rp ridx rest).reads, c.1 ≠ c.2 := by
              intro c hc
              apply hreads
              rw [manualRun, if_neg hx0, if_neg hrange, if_neg hdest, if_neg hadj,
                if_neg hcd, addRead_reads]
              exact List.mem_cons_of_mem _ hc
            rw [manualRun, manualRun, if_neg hx0, if_neg hx0, if_neg hrange, if_neg hrange,
              if_neg hdest, if_neg hdest, hMx, if_neg hadj, if_neg hadj,
              if_neg hcd, if_neg hcd, ih current path rp ridx hc1 hd1 hcd hr]

lemma connection_offdiag_agree :
    ∀ i j : ℕ, i ≠ j → matCell connection_matrix i j = matCell matrix_nodiag i j := by
  intro i j hij
  rcases Nat.lt_or_ge i 4 with hi | hi
  · rcases Nat.lt_or_ge j 4 with hj | hj
    · interval_cases i <;> interval_cases j <;> first | omega | rfl
    · have h1 : matCell connection_matrix i j = 0 := by
        apply List.getD_eq_default
        interval_cases i <;> simpa using hj
      have h2 : matCell matrix_nodiag i j = 0 := by
        apply List.getD_eq_default
        interval_cases i <;> simpa using hj
      rw [h1, h2]
  · have hrow1 : connection_matrix.getD i [] = [] :=
      List.getD_eq_default _ _ (by simpa [connection_matrix] using hi)
    have hrow2 : matrix_nodiag.getD i [] = [] :=
      List.getD_eq_default _ _ (by simpa [matrix_nodiag] using hi)
    have h1 : matCell connection_matrix i j = 0 := by
      rw [matCell, hrow1]; simp
    have h2 : matCell matrix_nodiag i j = 0 := by
      rw [matCell, hrow2]; simp
    rw [h1, h2]

/-- Claim C9 counterexample: with source router = destination router = 1 the
direct-link check reads the diagonal cell adj[0][0] and, because it is 1, the
shortcut is offered and (here) accepted, producing the path [1, 1]; with the
diagonal cleared and every off-diagonal entry identical, the same inputs
produce no path at all.  So a resolution step does treat router 1 as linked to
itself on the basis of adj[i][i], refuting the claim for the included case
source = dest. -/
theorem diagonal_carries_meaning :
    (resolveRoute connection_matrix 1 1 1 []).result = some ([1, 1], 11) ∧
      (resolveRoute matrix_nodiag 1 1 1 []).result = none ∧
      (∀ i j : ℕ, i ≠ j → matCell connection_matrix i j = matCell matrix_nodiag i j) :=
  ⟨by decide, by decide, connection_offdiag_agree⟩

/-- Claim C9 (amended): for queries with source ≠ dest whose resolution never
reads a diagonal cell (equivalently: no hop proposal ever names the router
that is current when it is proposed), the entire resolution is independent of
the diagonal entries - two matrices agreeing off the diagonal produce
identical runs.  The diagonal does carry meaning in exactly the excluded
cases: the claim as stated fails for source = dest (shortcut offer via
adj[i][i]) and for self-hop proposals (accepted via adj[i][i]). -/
theorem resolution_independent_of_diagonal (M M' : Mat) (s d : ℕ) (choice : ℤ)
    (hops : List ℤ) (hs1 : 1 ≤ s) (hd1 : 1 ≤ d) (hsd : s ≠ d)
    (agree : ∀ i j : ℕ, i ≠ j → matCell M i j = matCell M' i j)
    (hreads : ∀ c ∈ (resolveRoute M s d choice hops).reads, c.1 ≠ c.2) :
    resolveRoute M' s d choice hops = resolveRoute M s d choice hops := by
  have hsd' : s - 1 ≠ d - 1 := by omega
  have hM : matCell M' (s - 1) (d - 1) = matCell M (s - 1) (d - 1) := (agree _ _ hsd').symm
  by_cases hcase : matCell M (s - 1) (d - 1) = 1 ∧ choice = 1
  · rw [resolveRoute, resolveRoute, hM, if_pos hcase, if_pos hcase]
  · have hcase' : ¬(matCell M' (s - 1) (d - 1) = 1 ∧ choice = 1) := by
      rw [hM]; exact hcase
    rw [resolveRoute, resolveRoute, if_neg hcase, if_neg hcase']
    congr 1
    apply manualRun_offdiag_invariant M M' agree d hops s [s] (concat_router_ids 0 s) 0
      hs1 hd1 hsd
    intro c hc
    apply hreads
    rw [resolveRoute, if_neg hcase, addRead_reads]
    exact List.mem_cons_of_mem _ hc

/-- Witness for the amended C9: resolving router 1 to router 3 with hop inputs
[2, 0] reads only off-diagonal cells, so the run over the diagonal-cleared
matrix is identical to the run over `connection_matrix`. -/
theorem resolution_independent_of_diagonal_witness :
    resolveRoute matrix_nodiag 1 3 0 [2, 0] = resolveRoute connection_matrix 1 3 0 [2, 0] :=
  resolution_independent_of_diagonal connection_matrix matrix_nodiag 1 3 0 [2, 0]
    (by decide) (by decide) (by decide) connection_offdiag_agree (by decide)

/-! ## Claim C4 -/

lemma route_key_inj_aux :
    ∀ (s s' : List Char), '*' ∉ s → '*' ∉ s' → ∀ d d' : List Char,
      route_key s d = route_key s' d' → s = s' ∧ d = d' := by
  intro s
  induction s with
  | nil =>
    intro s' _ hs' d d' h
    cases s' with
    | nil => simpa [route_key] using h
    | cons c cs =>
      rw [route_key, route_key] at h
      simp only [List.nil_append, List.cons_append, List.cons.injEq] at h
      exact absurd (h.1 ▸ List.mem_cons_self c cs) hs'
  | cons c cs ih =>
    intro s' hs hs' d d' h
    cases s' with
    | nil =>
      rw [route_key, route_key] at h
      simp only [List.nil_append, List.cons_append, List.cons.injEq] at h
      exact absurd (h.1 ▸ List.mem_cons_self c cs) hs
    | cons c' cs' =>
      rw [route_key, route_key] at h
      simp only [List.cons_append, List.cons.injEq] at h
      obtain ⟨rfl, htail⟩ := h
      have h1 : '*' ∉ cs := fun hm => hs (List.mem_cons_of_mem _ hm)
      have h2 : '*' ∉ cs' := fun hm => hs' (List.mem_cons_of_mem _ hm)
      obtain ⟨rfl, rfl⟩ := ih cs' h1 h2 d d' htail
      exact ⟨rfl, rfl⟩

lemma route_key_inj {s d s' d' : List Char} (hs : '*' ∉ s) (hs' : '*' ∉ s') :
    route_key s d = route_key s' d' ↔ s = s' ∧ d = d' := by
  constructor
  · exact fun h => route_key_inj_aux s s' hs hs' d d' h
  · rintro ⟨rfl, rfl⟩; rfl

lemma historyLookup_first_match :
    ∀ (hist : List (List Char × ℕ)) (key : List Char) (p : ℕ),
      historyLookup hist key = some p ↔
        ∃ i, ∃ h : i < hist.length,
          (hist.get ⟨i, h⟩).1 = key ∧ (hist.get ⟨i, h⟩).2 = p ∧
            ∀ j, ∀ hj : j < i, (hist.get ⟨j, hj.trans h⟩).1 ≠ key := by
  intro hist
  induction hist with
  | nil => intro key p; simp [historyLookup]
  | cons e rest ih =>
    intro key p
    by_cases hk : e.1 = key
    · rw [historyLookup, if_pos hk]
      constructor
      · intro h
        simp only [Option.some.injEq] at h
        exact ⟨0, Nat.succ_pos _, hk, h, fun j hj => absurd hj (Nat.not_lt_zero j)⟩
      · rintro ⟨i, hi, h1, h2, h3⟩
        cases i with
        | zero => simp only [List.get] at h2; rw [h2]
        | succ n => exact absurd hk (h3 0 (Nat.succ_pos n))
    · rw [historyLookup, if_neg hk, ih key p]
      constructor
      · rintro ⟨i, hi, h1, h2, h3⟩
        refine ⟨i + 1, Nat.succ_lt_succ hi, by simpa using h1, by simpa using h2, ?_⟩
        intro j hj
        cases j with
        | zero => simpa using hk
        | succ m => simpa using h3 m (Nat.lt_of_succ_lt_succ hj)
      · rintro ⟨i, hi, h1, h2, h3⟩
        cases i with
        | zero => exact absurd (by simpa using h1) hk
        | succ n =>
          refine ⟨n, Nat.lt_of_succ_lt_succ hi, by simpa using h1, by simpa using h2, ?_⟩
          intro j hj
          have := h3 (j + 1) (Nat.succ_lt_succ hj)
          simpa using this

lemma mem_spec_split_of_mem :
    ∀ (l : List Char) (c : Char), c ∈ l → c ≠ '.' → ∃ t ∈ spec_split l, c ∈ t := by
  intro l
  induction l with
  | nil => intro c hc _; simp at hc
  | cons a as ih =>
    intro c hc hcdot
    by_cases ha : a = '.'
    · subst ha
      rw [spec_split_cons_dot]
      rcases List.mem_cons.mp hc with rfl | hc'
      · exact absurd rfl hcdot
      · obtain ⟨t, ht, hct⟩ := ih c hc' hcdot
        exact ⟨t, List.mem_cons_of_mem _ ht, hct⟩
    · rw [spec_split_cons_ne as ha]
      rcases List.mem_cons.mp hc with rfl | hc'
      · exact ⟨c :: (spec_split as).headI, List.mem_cons_self _ _, List.mem_cons_self _ _⟩
      · obtain ⟨t, ht, hct⟩ := ih c hc' hcdot
        rw [spec_split_headI_tail as] at ht
        rcases List.mem_cons.mp ht with hteq | ht'
        · exact ⟨a :: (spec_split as).headI, List.mem_cons_self _ _,
            List.mem_cons_of_mem _ (hteq ▸ hct)⟩
        · exact ⟨t, List.mem_cons_of_mem _ ht', hct⟩

lemma validate_ip_no_star (s : List Char) (hlen : s.length ≤ MAX_IP_LEN - 1)
    (hv : validate_ip s = true) : '*' ∉ s := by
  intro hstar
  have htake : s.take (MAX_IP_LEN - 1) = s := List.take_of_length_le hlen
  have hne : s.isEmpty = false := by
    cases s with
    | nil => simp at hstar
    | cons a as => rfl
  rw [validate_ip, hne] at hv
  simp only [Bool.false_eq_true, if_false, htake, tokenize_eq_filter, Bool.and_eq_true,
    decide_eq_true_eq, List.all_eq_true] at hv
  obtain ⟨t, ht, hstart⟩ := mem_spec_split_of_mem s '*' hstar (by decide)
  have htne : t ≠ [] := by
    intro h
    subst h
    simp at hstart
  have htf : t ∈ (spec_split s).filter (fun t => !t.isEmpty) := by
    rw [List.mem_filter]
    exact ⟨ht, by simpa [List.isEmpty_iff] using htne⟩
  have hpred := hv.2 t htf
  have hdig := hpred.1
  rw [validate_number, Bool.and_eq_true, List.all_eq_true] at hdig
  have := hdig.2 '*' hstart
  simp at this

/-- Claim C4: (1) the history scan inspects stored entries in insertion order
and returns the payload of the first entry whose key equals the query key;
(2) for star-free IP strings the key `"s*d"` equals the key of another pair
exactly when both IP strings coincide, so key equality is pair equality;
(3) Validator-valid IP strings of buffer-fitting length are star-free (which
is why (2) applies to every string the program can store); and (4) on a hit
the Session Controller returns the stored encoding verbatim, leaves the
history unchanged, and never invokes the Path Resolver - the outcome is the
same whatever `choice` and `hops` inputs the event carries, as they are not
consulted. -/
theorem cache_lookup_is_first_exact_match :
    (∀ (hist : List (List Char × ℕ)) (key : List Char) (p : ℕ),
        historyLookup hist key = some p ↔
          ∃ i, ∃ h : i < hist.length,
            (hist.get ⟨i, h⟩).1 = key ∧ (hist.get ⟨i, h⟩).2 = p ∧
              ∀ j, ∀ hj : j < i, (hist.get ⟨j, hj.trans h⟩).1 ≠ key) ∧
      (∀ s d s' d' : List Char, '*' ∉ s → '*' ∉ s' →
        (route_key s d = route_key s' d' ↔ s = s' ∧ d = d')) ∧
      (∀ s : List Char, s.length ≤ MAX_IP_LEN - 1 → validate_ip s = true → '*' ∉ s) ∧
      (∀ (M : Mat) (cfg : List (List (List Char))) (hist : List (List Char × ℕ))
          (q : QueryEvent) (p : ℕ),
        historyLookup hist (route_key q.sip q.dip) = some p →
        sessionQuery M cfg hist q = (some (Outcome.hit p), hist)) := by
  refine ⟨historyLookup_first_match, fun s d s' d' hs hs' => route_key_inj hs hs',
    validate_ip_no_star, ?_⟩
  intro M cfg hist q p hp
  rw [sessionQuery]
  simp only [hp]

/-- Witness for C4: a one-entry cache holding the key of (ipA, ipB); the query
for the same pair hits, returns the stored encoding 12 verbatim, leaves the
cache unchanged, and resolver inputs (here `choice = 0`, no hops) are
irrelevant; key equality coincides with pair equality on these star-free
strings. -/
theorem cache_lookup_is_first_exact_match_witness :
    (route_key ipA ipB = route_key ipA ipB ↔ ipA = ipA ∧ ipB = ipB) ∧
      sessionQuery connection_matrix cfg2 [(route_key ipA ipB, 12)] ⟨ipA, ipB, 0, [], 1⟩
        = (some (Outcome.hit 12), [(route_key ipA ipB, 12)]) :=
  ⟨cache_lookup_is_first_exact_match.2.1 ipA ipB ipA ipB (by decide) (by decide),
   cache_lookup_is_first_exact_match.2.2.2 connection_matrix cfg2
     [(route_key ipA ipB, 12)] ⟨ipA, ipB, 0, [], 1⟩ 12 (by decide)⟩

/-! ## Claim C5 -/

/-- Claim C5 counterexample: `hist20` holds MAX_ROUTE_HISTORY = 20 entries.
The fresh, distinct query (ipA, ipB) - source owned by router 1, destination
by router 2, direct link accepted - would resolve to path [1, 2] against an
empty history (second conjunct), but against the full history the routing
loop serves nothing at all: no outcome is produced and the resolver never
runs, contradicting "the query is still resolved and succeeds using the
freshly resolved path; only the insert is declined". -/
theorem cache_full_query_not_served :
    routingLoop connection_matrix cfg2 hist20 [⟨ipA, ipB, 1, [], 0⟩] = ([], hist20) ∧
      routingLoop connection_matrix cfg2 [] [⟨ipA, ipB, 1, [], 0⟩]
        = ([Outcome.fresh [1, 2] 12], [(route_key ipA ipB, 12)]) ∧
      hist20.length = MAX_ROUTE_HISTORY :=
  ⟨by decide, by decide, by decide⟩

/-- Claim C5 (amended): once the history holds MAX_ROUTE_HISTORY entries the
routing loop exits before serving any further query, whatever queries are
pending: no outcome is produced and the stored entries are left entirely
unchanged.  The in-query insert-declined branch (project.c lines 344-345) is
unreachable, because the loop guard at line 177 already excludes a full
history and at most one entry is appended per iteration. -/
theorem cache_full_stops_serving (M : Mat) (cfg : List (List (List Char)))
    (hist : List (List Char × ℕ)) (qs : List QueryEvent)
    (h : MAX_ROUTE_HISTORY ≤ hist.length) :
    routingLoop M cfg hist qs = ([], hist) := by
  cases qs with
  | nil => rfl
  | cons q rest =>
    rw [routingLoop, if_neg (Nat.not_lt.mpr h)]

/-- Witness for the amended C5: the full `hist20` with a pending query is left
untouched and yields no outcome. -/
theorem cache_full_stops_serving_witness :
    routingLoop connection_matrix cfg2 hist20 [⟨ipB, ipA, 1, [], 0⟩] = ([], hist20) :=
  cache_full_stops_serving connection_matrix cfg2 hist20 [⟨ipB, ipA, 1, [], 0⟩] (by decide)

/-! ## Claim C8 -/

lemma load_router_ips_all_valid :
    ∀ (n : ℕ) (stream : List (List Char)),
      stream.all validate_ip = true → n ≤ stream.length →
      load_router_ips n stream = some (stream.take n, stream.drop n) := by
  intro n
  induction n with
  | zero => intro stream _ _; simp [load_router_ips]
  | succ m ih =>
    intro stream hall hlen
    cases stream with
    | nil => simp at hlen
    | cons ip rest =>
      rw [List.all_cons, Bool.and_eq_true] at hall
      rw [load_router_ips, read_valid_ip, if_pos hall.1]
      simp [ih rest hall.2 (by simpa using hlen)]

lemma load_all_configs_all_valid :
    ∀ (nn : List ℕ) (stream : List (List Char)),
      stream.all validate_ip = true → nn.sum ≤ stream.length →
      load_all_configs nn stream = some (chunksOf nn stream) := by
  intro nn
  induction nn with
  | nil => intro stream _ _; simp [load_all_configs, chunksOf]
  | cons n ns ih =>
    intro stream hall hlen
    rw [List.sum_cons] at hlen
    have hn : n ≤ stream.length := by omega
    have hdropall : (stream.drop n).all validate_ip = true := by
      rw [List.all_eq_true] at hall ⊢
      intro x hx
      exact hall x (List.mem_of_mem_drop hx)
    have hdroplen : ns.sum ≤ (stream.drop n).length := by
      rw [List.length_drop]
      omega
    rw [chunksOf, load_all_configs, load_router_ips_all_valid n stream hall hn]
    simp [ih (stream.drop n) hdropall hdroplen]

lemma find_router_aux_first :
    ∀ (pre : List (List (List Char))) (k : ℕ) (row : List (List Char))
      (post : List (List (List Char))) (ip : List Char),
      (∀ r ∈ pre, ip ∉ r) → ip ∈ row →
      find_router_aux k (pre ++ row :: post) ip = k + pre.length + 1 := by
  intro pre
  induction pre with
  | nil =>
    intro k row post ip _ hip
    rw [List.nil_append, find_router_aux, if_pos hip]
    simp
  | cons r rs ih =>
    intro k row post ip hpre hip
    have hr : ip ∉ r := hpre r (List.mem_cons_self _ _)
    rw [List.cons_append, find_router_aux, if_neg hr,
      ih (k + 1) row post ip (fun r' hr' => hpre r' (List.mem_cons_of_mem _ hr')) hip]
    simp only [List.length_cons]
    omega

/-- Claim C8 counterexample: the same valid IP string registered under routers
1 and 2 loads successfully - the program reaches the query-serving state with
the duplicate configuration stored verbatim - and lookup then resolves
ownership silently by first match (router 1).  No load-time duplicate check
exists, so "loading fails whenever the same IP string is registered under two
different routers" is false of the code. -/
theorem duplicate_ip_loads_successfully :
    load_all_configs [1, 1, 0, 0] [dupIp, dupIp] = some [[dupIp], [dupIp], [], []] ∧
      find_router_by_ip [[dupIp], [dupIp], [], []] dupIp = 1 :=
  ⟨by decide, by decide⟩

/-- Claim C8 (amended): configuration loading performs no duplicate check:
every stream of Validator-valid IP strings - duplicates across routers
included - loads successfully and verbatim into the per-router lists; the
ambiguity is instead resolved silently at query time by first match, the
owner of an IP being the first router (lowest index) whose list contains it,
regardless of later registrations. -/
theorem duplicate_registration_not_rejected :
    (∀ (nn : List ℕ) (stream : List (List Char)),
        stream.all validate_ip = true → nn.sum ≤ stream.length →
        load_all_configs nn stream = some (chunksOf nn stream)) ∧
      (∀ (pre : List (List (List Char))) (row : List (List Char))
          (post : List (List (List Char))) (ip : List Char),
        (∀ r ∈ pre, ip ∉ r) → ip ∈ row →
        find_router_by_ip (pre ++ row :: post) ip = pre.length + 1) := by
  refine ⟨load_all_configs_all_valid, ?_⟩
  intro pre row post ip hpre hip
  rw [find_router_by_ip, find_router_aux_first pre 0 row post ip hpre hip]
  omega

/-- Witness for the amended C8: the duplicate-free hypotheses are discharged
concretely; a stream containing `dupIp` twice loads, and with `dupIp` also
registered under router 2 behind `ipA`, lookup returns router 2 only because
router 1 does not list it. -/
theorem duplicate_registration_not_rejected_witness :
    load_all_configs [1, 1, 0, 0] [dupIp, dupIp]
        = some (chunksOf [1, 1, 0, 0] [dupIp, dupIp]) ∧
      find_router_by_ip ([[ipA]] ++ [dupIp] :: [[], []]) dupIp = [[ipA]].length + 1 :=
  ⟨duplicate_registration_not_rejected.1 [1, 1, 0, 0] [dupIp, dupIp] (by decide) (by decide),
   duplicate_registration_not_rejected.2 [[ipA]] [dupIp] [[], []] dupIp (by decide) (by decide)⟩
